import Mathlib

/-!
Verification of the SHL job-recommendation system's core pipeline:
the Mean-Recall@K evaluator (`src/evaluation/shl_eval_framework.py`),
the retrieval engine (`src/retrieval/retriever.py`), the RAG recommender
(`src/recommendation/recommender.py`) and the catalog parser
(`src/scraper/parser.py`), shallowly embedded in Lean.  Python floats are
modelled as rationals; Python dicts are modelled as association lists
(insertion ordered, as CPython dicts are).
-/

namespace SHL

/-- Embedding of `MeanRecallAtKEvaluator.calculate_recall_at_k`
(`src/evaluation/shl_eval_framework.py`, lines 95-126): empty ground truth
returns 1.0; otherwise the top-k prefix of `predicted` and `ground_truth`
are both turned into sets and the recall is `|top_k ∩ gt| / |gt|`. -/
def calculate_recall_at_k (predicted ground_truth : List String) (k : Nat) : ℚ :=
  if ground_truth = [] then 1
  else
    let top_k : Finset String := (predicted.take k).toFinset
    let ground_truth_set : Finset String := ground_truth.toFinset
    let correct : ℕ := (top_k ∩ ground_truth_set).card
    (correct : ℚ) / (ground_truth_set.card : ℚ)

lemma card_toFinset_inter (A B : List String) :
    (A.toFinset ∩ B.toFinset).card = (B.filter (fun u => u ∈ A)).dedup.length := by
  rw [← List.card_toFinset, List.toFinset_filter]
  rw [Finset.inter_comm, ← Finset.filter_mem_eq_inter]
  congr 1
  exact Finset.filter_congr (fun x _ => by simp)

/-- C1: for non-empty ground truth, `calculate_recall_at_k` equals the number
of distinct ground-truth URLs occurring in the top-k prefix of the ranked
predictions divided by the number of distinct ground-truth URLs; the prefix is
a set (duplicates collapse: `["a","a","b"]` vs `["a","b"]` at k = 2 gives 1/2)
and a `k` beyond the list length uses the whole list (`["a","b"]` vs
`["a","b"]` at k = 5 gives 1). -/
theorem recall_at_k_formula (predicted ground_truth : List String) (k : Nat)
    (h : ground_truth ≠ []) :
    calculate_recall_at_k predicted ground_truth k
        = ((ground_truth.filter (fun u => u ∈ predicted.take k)).dedup.length : ℚ)
            / (ground_truth.dedup.length : ℚ)
    ∧ calculate_recall_at_k ["a", "a", "b"] ["a", "b"] 2 = 1 / 2
    ∧ calculate_recall_at_k ["a", "b"] ["a", "b"] 5 = 1 := by
  refine ⟨?_, ?_, ?_⟩
  · simp only [calculate_recall_at_k, if_neg h]
    rw [← List.card_toFinset ground_truth]
    congr 2
    exact card_toFinset_inter _ _
  · simp [calculate_recall_at_k, Finset.singleton_inter_of_not_mem]
  · simp [calculate_recall_at_k]

/-- Witness for C1 at a concrete input. -/
theorem recall_at_k_formula_witness :
    (["x", "y"] : List String) ≠ []
    ∧ (calculate_recall_at_k ["x"] ["x", "y"] 1
        = (((["x", "y"] : List String).filter
              (fun u => u ∈ (["x"] : List String).take 1)).dedup.length : ℚ)
            / (((["x", "y"] : List String)).dedup.length : ℚ)
      ∧ calculate_recall_at_k ["a", "a", "b"] ["a", "b"] 2 = 1 / 2
      ∧ calculate_recall_at_k ["a", "b"] ["a", "b"] 5 = 1) :=
  ⟨List.cons_ne_nil _ _,
    recall_at_k_formula ["x"] ["x", "y"] 1 (List.cons_ne_nil _ _)⟩

/-- C2: `calculate_recall_at_k` with an empty ground-truth list returns
exactly 1.0, for every predicted list and every k. -/
theorem recall_at_k_empty_ground_truth (predicted : List String) (k : Nat) :
    calculate_recall_at_k predicted [] k = 1 := by
  simp [calculate_recall_at_k]

/-- Metadata stored with each entry of the ChromaDB collection, as read by the
retriever (`src/retrieval/retriever.py`).  All fields are accessed with
`metadata[...]` except `assessment_url`, which `retrieve_by_query` reads with
`metadata.get('assessment_url', '')` and is therefore optional. -/
structure IndexMetadata where
  name : String
  category : String
  description : String
  skills_measured : String
  job_suitability : String
  experience_level : String
  duration : String
  delivery_method : String
  assessment_url : Option String

/-- One nearest neighbor as returned by `collection.query`: the stored
document text, its metadata, and its cosine distance to the query. -/
structure Neighbor where
  doc : String
  metadata : IndexMetadata
  distance : ℚ

/-- Result dictionary built by `AssessmentRetriever.retrieve`
(`src/retrieval/retriever.py`, lines 144-174). -/
structure RetrievedAssessment where
  rank : ℕ
  name : String
  category : String
  description : String
  skills_measured : String
  job_suitability : String
  experience_level : String
  duration : String
  delivery_method : String
  similarity_score : ℚ
  full_text : String
deriving DecidableEq

/-- Result dictionary built by `AssessmentRetriever.retrieve_by_query`
(`src/retrieval/retriever.py`, lines 224-252); unlike `retrieve` it carries
`assessment_url` instead of `full_text`. -/
structure RetrievedAssessmentQ where
  rank : ℕ
  name : String
  category : String
  description : String
  skills_measured : String
  job_suitability : String
  experience_level : String
  duration : String
  delivery_method : String
  assessment_url : String
  similarity_score : ℚ
deriving DecidableEq

/-- Embedding of the result-formatting loop of `AssessmentRetriever.retrieve`
(lines 144-174): the neighbors returned by the index are enumerated from 0,
`similarity_score = 1 - distance`, `rank = i + 1`, and no
similarity-threshold filter is applied ("Don't filter - return all retrieved
results").  The index answer is the function's input; embedding the query,
its vector and the database itself is unnecessary for the formatting step. -/
def retrieve (neighbors : List Neighbor) : List RetrievedAssessment :=
  neighbors.enum.map (fun p =>
    { rank := p.1 + 1
      name := p.2.metadata.name
      category := p.2.metadata.category
      description := p.2.metadata.description
      skills_measured := p.2.metadata.skills_measured
      job_suitability := p.2.metadata.job_suitability
      experience_level := p.2.metadata.experience_level
      duration := p.2.metadata.duration
      delivery_method := p.2.metadata.delivery_method
      similarity_score := 1 - p.2.distance
      full_text := p.2.doc })

/-- Embedding of the result-formatting loop of
`AssessmentRetriever.retrieve_by_query` (lines 224-252). -/
def retrieve_by_query (neighbors : List Neighbor) : List RetrievedAssessmentQ :=
  neighbors.enum.map (fun p =>
    { rank := p.1 + 1
      name := p.2.metadata.name
      category := p.2.metadata.category
      description := p.2.metadata.description
      skills_measured := p.2.metadata.skills_measured
      job_suitability := p.2.metadata.job_suitability
      experience_level := p.2.metadata.experience_level
      duration := p.2.metadata.duration
      delivery_method := p.2.metadata.delivery_method
      assessment_url := p.2.metadata.assessment_url.getD ""
      similarity_score := 1 - p.2.distance })

/-- Modelled from the spec: ChromaDB's `collection.query(query_embeddings,
n_results=k)` is an external capability (spec §1 non-goals exclude
nearest-neighbor index internals); spec §4.2 gives its contract, "returns up
to k nearest neighbors by ascending distance". -/
def index_query_contract (k : ℕ) (neighbors : List Neighbor) : Prop :=
  neighbors.length ≤ k ∧ (neighbors.map Neighbor.distance).Sorted (· ≤ ·)

lemma retrieve_map_score (ns : List Neighbor) :
    (retrieve ns).map RetrievedAssessment.similarity_score
      = ns.map (fun n => 1 - n.distance) := by
  rw [retrieve, List.map_map]
  have : (RetrievedAssessment.similarity_score ∘ fun p : ℕ × Neighbor =>
      ({ rank := p.1 + 1
         name := p.2.metadata.name
         category := p.2.metadata.category
         description := p.2.metadata.description
         skills_measured := p.2.metadata.skills_measured
         job_suitability := p.2.metadata.job_suitability
         experience_level := p.2.metadata.experience_level
         duration := p.2.metadata.duration
         delivery_method := p.2.metadata.delivery_method
         similarity_score := 1 - p.2.distance
         full_text := p.2.doc } : RetrievedAssessment))
      = (fun n => 1 - n.distance) ∘ Prod.snd := rfl
  rw [this, ← List.map_map, List.enum_map_snd]

lemma retrieve_length (ns : List Neighbor) :
    (retrieve ns).length = ns.length := by
  simp [retrieve]

/-- C3: if the index honors its contract (at most `k` neighbors, ascending
distance), `retrieve` returns at most `k` results and its similarity scores
are non-increasing from rank 1 to the last rank. -/
theorem retrieve_le_k_and_scores_antitone (k : ℕ) (neighbors : List Neighbor)
    (h : index_query_contract k neighbors) :
    (retrieve neighbors).length ≤ k
    ∧ ((retrieve neighbors).map RetrievedAssessment.similarity_score).Sorted
        (· ≥ ·) := by
  obtain ⟨hlen, hsort⟩ := h
  refine ⟨by rw [retrieve_length]; exact hlen, ?_⟩
  rw [retrieve_map_score]
  rw [List.Sorted, List.pairwise_map]
  rw [List.Sorted, List.pairwise_map] at hsort
  exact hsort.imp (fun hab => by simp only [ge_iff_le]; linarith)

/-- Witness for C3 at a concrete index answer. -/
theorem retrieve_le_k_and_scores_antitone_witness :
    (retrieve [⟨"d1", ⟨"", "", "", "", "", "", "", "", none⟩, 0⟩,
               ⟨"d2", ⟨"", "", "", "", "", "", "", "", none⟩, 1⟩]).length ≤ 5
    ∧ ((retrieve [⟨"d1", ⟨"", "", "", "", "", "", "", "", none⟩, 0⟩,
                  ⟨"d2", ⟨"", "", "", "", "", "", "", "", none⟩, 1⟩]).map
          RetrievedAssessment.similarity_score).Sorted (· ≥ ·) :=
  retrieve_le_k_and_scores_antitone 5 _
    (by constructor
        · simp
        · simp [List.sorted_cons])

/-- C4: `retrieve` and `retrieve_by_query` keep every neighbor the index
returned (no similarity-threshold filtering), set
`similarity_score = 1 - distance`, and assign ranks 1..N in the order the
index returned the neighbors. -/
theorem retrieve_scores_ranks_no_filter (ns : List Neighbor) :
    ((retrieve ns).length = ns.length
      ∧ (retrieve ns).map RetrievedAssessment.similarity_score
          = ns.map (fun n => 1 - n.distance)
      ∧ (retrieve ns).map RetrievedAssessment.rank = List.range' 1 ns.length)
    ∧ ((retrieve_by_query ns).length = ns.length
      ∧ (retrieve_by_query ns).map RetrievedAssessmentQ.similarity_score
          = ns.map (fun n => 1 - n.distance)
      ∧ (retrieve_by_query ns).map RetrievedAssessmentQ.rank
          = List.range' 1 ns.length) := by
  constructor
  · refine ⟨retrieve_length ns, retrieve_map_score ns, ?_⟩
    rw [retrieve, List.map_map, List.range'_eq_map_range]
    have h1 : (RetrievedAssessment.rank ∘ fun p : ℕ × Neighbor =>
        ({ rank := p.1 + 1
           name := p.2.metadata.name
           category := p.2.metadata.category
           description := p.2.metadata.description
           skills_measured := p.2.metadata.skills_measured
           job_suitability := p.2.metadata.job_suitability
           experience_level := p.2.metadata.experience_level
           duration := p.2.metadata.duration
           delivery_method := p.2.metadata.delivery_method
           similarity_score := 1 - p.2.distance
           full_text := p.2.doc } : RetrievedAssessment))
        = (fun i => i + 1) ∘ Prod.fst := rfl
    rw [h1, ← List.map_map, List.enum_map_fst]
    exact List.map_congr_left (fun i _ => Nat.add_comm i 1)
  · refine ⟨by simp [retrieve_by_query], ?_, ?_⟩
    · rw [retrieve_by_query, List.map_map]
      have h2 : (RetrievedAssessmentQ.similarity_score ∘ fun p : ℕ × Neighbor =>
          ({ rank := p.1 + 1
             name := p.2.metadata.name
             category := p.2.metadata.category
             description := p.2.metadata.description
             skills_measured := p.2.metadata.skills_measured
             job_suitability := p.2.metadata.job_suitability
             experience_level := p.2.metadata.experience_level
             duration := p.2.metadata.duration
             delivery_method := p.2.metadata.delivery_method
             assessment_url := p.2.metadata.assessment_url.getD ""
             similarity_score := 1 - p.2.distance } : RetrievedAssessmentQ))
          = (fun n => 1 - n.distance) ∘ Prod.snd := rfl
      rw [h2, ← List.map_map, List.enum_map_snd]
    · rw [retrieve_by_query, List.map_map, List.range'_eq_map_range]
      have h3 : (RetrievedAssessmentQ.rank ∘ fun p : ℕ × Neighbor =>
          ({ rank := p.1 + 1
             name := p.2.metadata.name
             category := p.2.metadata.category
             description := p.2.metadata.description
             skills_measured := p.2.metadata.skills_measured
             job_suitability := p.2.metadata.job_suitability
             experience_level := p.2.metadata.experience_level
             duration := p.2.metadata.duration
             delivery_method := p.2.metadata.delivery_method
             assessment_url := p.2.metadata.assessment_url.getD ""
             similarity_score := 1 - p.2.distance } : RetrievedAssessmentQ))
          = (fun i => i + 1) ∘ Prod.fst := rfl
      rw [h3, ← List.map_map, List.enum_map_fst]
      exact List.map_congr_left (fun i _ => Nat.add_comm i 1)

/-- Python's `\s` character class over the ASCII range, as used by
`AssessmentParser.clean_text` (`src/scraper/parser.py`); the catalog data
this parser sees is ASCII, so the unicode classes are modelled by their
ASCII fragments. -/
def isPySpace (c : Char) : Bool :=
  c = ' ' || c = '\t' || c = '\n' || c = '\r' || c = '\x0b' || c = '\x0c'

/-- Python's `\w` character class (ASCII fragment): alphanumerics and the
underscore. -/
def isPyWord (c : Char) : Bool :=
  c.isAlphanum || c = '_'

/-- The character class kept by `re.sub(r'[^\w\s.,!?()-]', '', text)` in
`clean_text`: word characters, whitespace and the listed punctuation. -/
def keepChar (c : Char) : Bool :=
  isPyWord c || isPySpace c || ['.', ',', '!', '?', '(', ')', '-'].contains c

/-- Embedding of `re.sub(r'\s+', ' ', text)`: each maximal whitespace run is
replaced by a single space.  `prevSpace` records whether the previous
character belonged to a run already replaced. -/
def collapseWS : Bool → List Char → List Char
  | _, [] => []
  | prevSpace, c :: cs =>
    if isPySpace c then
      if prevSpace then collapseWS true cs else ' ' :: collapseWS true cs
    else c :: collapseWS false cs

/-- Embedding of Python's `str.strip()`: drop whitespace from both ends. -/
def stripChars (l : List Char) : List Char :=
  ((l.dropWhile isPySpace).reverse.dropWhile isPySpace).reverse

/-- Embedding of `AssessmentParser.clean_text` (`src/scraper/parser.py`,
lines 32-52): collapse whitespace runs, drop disallowed characters, strip. -/
def clean_text (s : String) : String :=
  ⟨stripChars ((collapseWS false s.data).filter keepChar)⟩

/-- Raw scraped assessment fields as read by
`AssessmentParser.parse_assessment` via `assessment.get(...)`. -/
structure RawAssessment where
  name : String
  category : String
  description : String
  skills_measured : List String
  job_suitability : List String
  experience_level : List String
  duration : String
  delivery_method : String

/-- The eight cleaned fields that `parse_assessment` builds before deriving
`full_text` from them. -/
structure ParsedFields where
  name : String
  category : String
  description : String
  skills_measured : String
  job_suitability : String
  experience_level : String
  duration : String
  delivery_method : String

/-- A parsed assessment: the cleaned fields plus the derived `full_text`. -/
structure ParsedAssessment extends ParsedFields where
  full_text : String

/-- Embedding of `AssessmentParser._create_full_text` (`src/scraper/parser.py`,
lines 80-102): the six parts, joined with `" | "`. -/
def create_full_text (assessment : ParsedFields) : String :=
  String.intercalate " | "
    ["Assessment: " ++ assessment.name,
     "Category: " ++ assessment.category,
     "Description: " ++ assessment.description,
     "Skills Measured: " ++ assessment.skills_measured,
     "Suitable for: " ++ assessment.job_suitability,
     "Experience Levels: " ++ assessment.experience_level]

/-- Embedding of `AssessmentParser.parse_assessment` (`src/scraper/parser.py`,
lines 54-78). -/
def parse_assessment (assessment : RawAssessment) : ParsedAssessment :=
  let parsed : ParsedFields :=
    { name := clean_text assessment.name
      category := clean_text assessment.category
      description := clean_text assessment.description
      skills_measured := String.intercalate ", " assessment.skills_measured
      job_suitability := String.intercalate ", " assessment.job_suitability
      experience_level := String.intercalate ", " assessment.experience_level
      duration := clean_text assessment.duration
      delivery_method := clean_text assessment.delivery_method }
  { toParsedFields := parsed, full_text := create_full_text parsed }

lemma string_lit_merge (a b c X : String) (h : a ++ b = c) :
    a ++ (b ++ X) = c ++ X := by
  rw [← String.append_assoc, h]

lemma create_full_text_template (p : ParsedFields) :
    create_full_text p
      = "Assessment: " ++ p.name ++ " | Category: " ++ p.category
        ++ " | Description: " ++ p.description
        ++ " | Skills Measured: " ++ p.skills_measured
        ++ " | Suitable for: " ++ p.job_suitability
        ++ " | Experience Levels: " ++ p.experience_level := by
  simp only [create_full_text, String.intercalate, String.intercalate.go,
    String.append_assoc]
  simp only
    [show ∀ X : String, " | " ++ ("Category: " ++ X) = " | Category: " ++ X
       from fun X => string_lit_merge _ _ _ X rfl,
     show ∀ X : String, " | " ++ ("Description: " ++ X) = " | Description: " ++ X
       from fun X => string_lit_merge _ _ _ X rfl,
     show ∀ X : String, " | " ++ ("Skills Measured: " ++ X) = " | Skills Measured: " ++ X
       from fun X => string_lit_merge _ _ _ X rfl,
     show ∀ X : String, " | " ++ ("Suitable for: " ++ X) = " | Suitable for: " ++ X
       from fun X => string_lit_merge _ _ _ X rfl,
     show ∀ X : String, " | " ++ ("Experience Levels: " ++ X) = " | Experience Levels: " ++ X
       from fun X => string_lit_merge _ _ _ X rfl]

/-- C9: every parsed record's `full_text` is exactly the fixed template
`"Assessment: <name> | Category: <category> | Description: <description> |
Skills Measured: <skills> | Suitable for: <jobSuitability> | Experience
Levels: <experienceLevel>"` instantiated with that record's own fields, in
that order. -/
theorem parse_assessment_full_text_template (raw : RawAssessment) :
    (parse_assessment raw).full_text
      = "Assessment: " ++ (parse_assessment raw).name
        ++ " | Category: " ++ (parse_assessment raw).category
        ++ " | Description: " ++ (parse_assessment raw).description
        ++ " | Skills Measured: " ++ (parse_assessment raw).skills_measured
        ++ " | Suitable for: " ++ (parse_assessment raw).job_suitability
        ++ " | Experience Levels: " ++ (parse_assessment raw).experience_level :=
  create_full_text_template _

/-- Outcome of the external LLM chat-completion call made by the recommender:
either the generated text, or the call raised an exception
(network/auth/quota — any exception is caught by the `except` block). -/
inductive LLMOutcome
  | ok (text : String)
  | error

/-- Result dictionary of `AssessmentRecommender.recommend`
(`src/recommendation/recommender.py`, lines 146-227).  The empty-retrieval
early return (lines 177-187) is the only path that sets `recommendations`
and `explanation`; the normal path is the only one carrying
`additional_context`.  Keys absent from a branch's dict are `none`.  The
`timestamp` key (wall clock) is outside the embedding. -/
structure RecommendResult where
  job_title : String
  skills : List String
  experience_level : String
  additional_context : Option String
  retrieved_assessments : List RetrievedAssessment
  llm_recommendations : Option String
  retrieval_count : ℕ
  recommendations : Option (List RetrievedAssessment)
  explanation : Option String

/-- Embedding of `AssessmentRecommender.recommend`
(`src/recommendation/recommender.py`, lines 146-227).  The retrieval step's
output is the `retrieved_assessments` argument; `has_client` is whether
`self.client` is non-`None`; `llm` is the outcome of the external generation
call, whose exceptions are caught and turn `llm_response` into `None`. -/
def recommend (job_title : String) (skills : List String)
    (experience_level : String) (additional_context : Option String)
    (use_llm : Bool) (has_client : Bool)
    (retrieved_assessments : List RetrievedAssessment) (llm : LLMOutcome) :
    RecommendResult :=
  if retrieved_assessments = [] then
    { job_title := job_title
      skills := skills
      experience_level := experience_level
      additional_context := none
      retrieved_assessments := []
      recommendations := some []
      explanation := some "No suitable assessments found for the given criteria."
      retrieval_count := 0
      llm_recommendations := none }
  else
    let llm_response : Option String :=
      if use_llm && has_client then
        match llm with
        | .ok t => some t
        | .error => none
      else none
    { job_title := job_title
      skills := skills
      experience_level := experience_level
      additional_context := additional_context
      retrieved_assessments := retrieved_assessments
      llm_recommendations := llm_response
      retrieval_count := retrieved_assessments.length
      recommendations := none
      explanation := none }

/-- Result dictionary of `AssessmentRecommender.recommend_simple`
(`src/recommendation/recommender.py`, lines 229-306), with the same
absent-key convention as `RecommendResult`. -/
structure SimpleRecommendResult where
  query : String
  retrieved_assessments : List RetrievedAssessmentQ
  llm_recommendations : Option String
  retrieval_count : ℕ
  recommendations : Option (List RetrievedAssessmentQ)
  explanation : Option String

/-- Embedding of `AssessmentRecommender.recommend_simple`
(`src/recommendation/recommender.py`, lines 229-306). -/
def recommend_simple (query : String) (use_llm : Bool) (has_client : Bool)
    (retrieved_assessments : List RetrievedAssessmentQ) (llm : LLMOutcome) :
    SimpleRecommendResult :=
  if retrieved_assessments = [] then
    { query := query
      retrieved_assessments := []
      llm_recommendations := none
      retrieval_count := 0
      recommendations := some []
      explanation := some "No suitable assessments found." }
  else
    { query := query
      retrieved_assessments := retrieved_assessments
      llm_recommendations :=
        if use_llm && has_client then
          match llm with
          | .ok t => some t
          | .error => none
        else none
      retrieval_count := retrieved_assessments.length
      recommendations := none
      explanation := none }

/-- C7: if the external generation call raises, both `recommend` and
`recommend_simple` still return the retrieved assessment list unchanged, and
the explanation field `llm_recommendations` is empty — a generation failure
never suppresses or alters the retrieval output. -/
theorem generation_failure_preserves_retrieval
    (job_title : String) (skills : List String) (experience_level : String)
    (ctx : Option String) (query : String) (use_llm has_client : Bool)
    (retrieved : List RetrievedAssessment)
    (retrievedQ : List RetrievedAssessmentQ)
    (llm : LLMOutcome) (h : llm = .error) :
    ((recommend job_title skills experience_level ctx use_llm has_client
          retrieved llm).retrieved_assessments = retrieved
      ∧ (recommend job_title skills experience_level ctx use_llm has_client
          retrieved llm).llm_recommendations = none)
    ∧ ((recommend_simple query use_llm has_client retrievedQ
          llm).retrieved_assessments = retrievedQ
      ∧ (recommend_simple query use_llm has_client retrievedQ
          llm).llm_recommendations = none) := by
  subst h
  refine ⟨?_, ?_⟩
  · by_cases hr : retrieved = [] <;> simp [recommend, hr]
  · by_cases hr : retrievedQ = [] <;> simp [recommend_simple, hr]

/-- Witness for C7 at a concrete input. -/
theorem generation_failure_preserves_retrieval_witness :
    ((recommend "Engineer" ["Python"] "Mid" none true true
          [⟨1, "A", "c", "d", "s", "j", "e", "30", "online", 1, "t"⟩]
          .error).retrieved_assessments
        = [⟨1, "A", "c", "d", "s", "j", "e", "30", "online", 1, "t"⟩]
      ∧ (recommend "Engineer" ["Python"] "Mid" none true true
          [⟨1, "A", "c", "d", "s", "j", "e", "30", "online", 1, "t"⟩]
          .error).llm_recommendations = none)
    ∧ ((recommend_simple "query" true true
          [⟨1, "A", "c", "d", "s", "j", "e", "30", "online", "u", 1⟩]
          .error).retrieved_assessments
        = [⟨1, "A", "c", "d", "s", "j", "e", "30", "online", "u", 1⟩]
      ∧ (recommend_simple "query" true true
          [⟨1, "A", "c", "d", "s", "j", "e", "30", "online", "u", 1⟩]
          .error).llm_recommendations = none) :=
  generation_failure_preserves_retrieval "Engineer" ["Python"] "Mid" none
    "query" true true _ _ .error rfl

/-- Python keyword-argument binding for a signature that declares no
var-keyword (`**kwargs`) parameter: a call binds only if every keyword names
a declared parameter; otherwise CPython raises
`TypeError: got an unexpected keyword argument`. -/
def accepts_keywords (params : List String) (kwargs : List String) : Bool :=
  kwargs.all (fun kw => params.contains kw)

/-- Declared (non-`self`) parameter names of
`AssessmentRecommender.recommend_simple` (`src/recommendation/recommender.py`,
lines 229-233); the signature has no `**kwargs`. -/
def recommend_simple_params : List String := ["query", "use_llm"]

/-- Keyword arguments of the call
`self.recommender.recommend_simple(query_id, top_k=10)` issued by
`EvaluationPipeline.run_full_evaluation` (`src/evaluation/shl_eval_framework.py`,
line 353) and by `_generate_test_predictions` (line 393). -/
def pipeline_recommend_simple_kwargs : List String := ["top_k"]

/-- A small universe of Python runtime values, to state shape facts about
returned objects. -/
inductive PyVal
  | str (s : String)
  | num (q : ℚ)
  | pyNone
  | pyList (xs : List PyVal)
  | pyDict (entries : List (String × PyVal))

/-- Whether a Python value is a list (what iterating
`[p.get('url') ... for p in predictions]` requires of a list of dicts). -/
def PyVal.isList : PyVal → Bool
  | .pyList _ => true
  | _ => false

/-- The dict `retrieve_by_query` builds for one assessment, as a Python
value. -/
def RetrievedAssessmentQ.toPy (a : RetrievedAssessmentQ) : PyVal :=
  .pyDict [("rank", .num a.rank), ("name", .str a.name),
    ("category", .str a.category), ("description", .str a.description),
    ("skills_measured", .str a.skills_measured),
    ("job_suitability", .str a.job_suitability),
    ("experience_level", .str a.experience_level),
    ("duration", .str a.duration),
    ("delivery_method", .str a.delivery_method),
    ("assessment_url", .str a.assessment_url),
    ("similarity_score", .num a.similarity_score)]

/-- The return value of `recommend_simple` rendered as the Python dict the
source builds: the empty-retrieval branch's dict (lines 250-255) when
`recommendations`/`explanation` are present, the normal branch's dict
(lines 301-306) otherwise. -/
def SimpleRecommendResult.toPy (r : SimpleRecommendResult) : PyVal :=
  match r.recommendations, r.explanation with
  | some recs, some ex =>
      .pyDict [("query", .str r.query),
        ("recommendations", .pyList (recs.map RetrievedAssessmentQ.toPy)),
        ("explanation", .str ex),
        ("retrieval_count", .num r.retrieval_count)]
  | _, _ =>
      .pyDict [("query", .str r.query),
        ("retrieved_assessments",
          .pyList (r.retrieved_assessments.map RetrievedAssessmentQ.toPy)),
        ("llm_recommendations",
          match r.llm_recommendations with
          | some t => .str t
          | none => .pyNone),
        ("retrieval_count", .num r.retrieval_count)]

/-- C10: the prediction-generation step of
`EvaluationPipeline.run_full_evaluation` passes the keyword `top_k` to
`recommend_simple`, whose signature `(query, use_llm)` does not accept it, so
CPython raises `TypeError` at that call — before any recall is computed; and
even apart from that, every value `recommend_simple` returns is a dict, never
the list of assessment dicts the pipeline comprehension iterates over. -/
theorem pipeline_recommend_simple_call_mismatch :
    accepts_keywords recommend_simple_params pipeline_recommend_simple_kwargs
        = false
    ∧ ∀ (query : String) (use_llm has_client : Bool)
        (retrieved : List RetrievedAssessmentQ) (llm : LLMOutcome),
        ((recommend_simple query use_llm has_client retrieved llm).toPy).isList
          = false := by
  refine ⟨rfl, ?_⟩
  intro query use_llm has_client retrieved llm
  by_cases hr : retrieved = [] <;>
    simp [recommend_simple, hr, SimpleRecommendResult.toPy, PyVal.isList]

/-- Embedding of Python's `round(x, 4)` over the rationals:
`round(x·10⁴)/10⁴`.  CPython rounds half-to-even while Mathlib's `round`
rounds half up; they differ only at exact half-ulp ties, which none of the
verified properties touch. -/
def round4 (x : ℚ) : ℚ := (round (x * 10000) : ℤ) / 10000

/-- `np.mean` of a list of rationals. -/
def listMean (l : List ℚ) : ℚ := l.sum / l.length

/-- The square of `np.std(l)`: the population variance (`np.std` defaults to
`ddof = 0`). -/
def popVariance (l : List ℚ) : ℚ :=
  (l.map (fun x => (x - listMean l) ^ 2)).sum / l.length

/-- `np.min` of a (non-empty) list. -/
def listMin : List ℚ → ℚ
  | [] => 0
  | x :: xs => xs.foldl min x

/-- `np.max` of a (non-empty) list. -/
def listMax : List ℚ → ℚ
  | [] => 0
  | x :: xs => xs.foldl max x

/-- Summary statistics recorded per K by `evaluate_system` (lines 179-184).
`mean`, `min` and `max` are rounded to 4 decimal places as in the source.
`np.std` is the square root of `var`; a rational square root is irrational
in general, so the embedding keeps the population variance, and facts about
the reported std are phrased through `var` (`std = 0` exactly when
`var = 0`). -/
structure SummaryStats where
  mean : ℚ
  var : ℚ
  min : ℚ
  max : ℚ
deriving DecidableEq

/-- The `SummaryStats` computed for one non-empty recall list
(lines 174-184). -/
def statsOf (recalls : List ℚ) : SummaryStats :=
  { mean := round4 (listMean recalls)
    var := popVariance recalls
    min := round4 (listMin recalls)
    max := round4 (listMax recalls) }

/-- Update of `results['mean_recall_at_k']` for one `(k, recall)`: create the
key with `[]` if absent (lines 165-166), then append (line 168).  The
`recall@{k}` string keys are modelled by the integer `k` itself. -/
def appendRecall (m : List (ℕ × List ℚ)) (k : ℕ) (r : ℚ) : List (ℕ × List ℚ) :=
  if m.any (fun p => p.1 == k) then
    m.map (fun p => if p.1 = k then (p.1, p.2 ++ [r]) else p)
  else m ++ [(k, [r])]

/-- Assignment into an insertion-ordered dict: overwrite the key if present,
append it otherwise. -/
def dictSet (kv : List (ℕ × ℚ)) (k : ℕ) (r : ℚ) : List (ℕ × ℚ) :=
  if kv.any (fun p => p.1 == k) then
    kv.map (fun p => if p.1 = k then (p.1, r) else p)
  else kv ++ [(k, r)]

/-- `results['per_query_recall'][query_id][f'recall@{k}'] = recall` on the
`defaultdict(dict)` (line 169). -/
def setPerQuery (m : List (String × List (ℕ × ℚ))) (q : String) (k : ℕ)
    (r : ℚ) : List (String × List (ℕ × ℚ)) :=
  if m.any (fun p => p.1 == q) then
    m.map (fun p => if p.1 = q then (p.1, dictSet p.2 k r) else p)
  else m ++ [(q, [(k, r)])]

/-- The mutable fields of `results` during the query loop of
`evaluate_system` (lines 145-169), plus the `logger.warning` emissions. -/
structure EvalLoopState where
  queries_evaluated : ℕ
  mean_recall_at_k : List (ℕ × List ℚ)
  per_query_recall : List (String × List (ℕ × ℚ))
  warnings : List String
deriving DecidableEq

/-- One iteration of `for query_id, ground_truth_urls in
ground_truth.items()` (lines 153-169): a ground-truth query with no entry in
`query_predictions` is logged and skipped; otherwise `queries_evaluated` is
incremented and the recall at each configured K is recorded. -/
def evalStep (K_values : List ℕ)
    (query_predictions : List (String × List String)) (st : EvalLoopState)
    (entry : String × List String) : EvalLoopState :=
  match query_predictions.lookup entry.1 with
  | none => { st with warnings := st.warnings ++ [entry.1] }
  | some predicted_urls =>
    K_values.foldl
      (fun st k =>
        let rec_k := calculate_recall_at_k predicted_urls entry.2 k
        { st with
          mean_recall_at_k := appendRecall st.mean_recall_at_k k rec_k
          per_query_recall := setPerQuery st.per_query_recall entry.1 k rec_k })
      { st with queries_evaluated := st.queries_evaluated + 1 }

/-- The summary loop of `evaluate_system` (lines 171-189): every K whose
recall list is non-empty gets its `SummaryStats`. -/
def buildSummary (m : List (ℕ × List ℚ)) : List (ℕ × SummaryStats) :=
  m.foldl (fun s p => if p.2 = [] then s else s ++ [(p.1, statsOf p.2)]) []

/-- The `results` dictionary returned by `evaluate_system`. -/
structure EvalResults where
  queries_evaluated : ℕ
  mean_recall_at_k : List (ℕ × List ℚ)
  per_query_recall : List (String × List (ℕ × ℚ))
  summary : List (ℕ × SummaryStats)
  warnings : List String
deriving DecidableEq

/-- Embedding of `MeanRecallAtKEvaluator.evaluate_system`
(`src/evaluation/shl_eval_framework.py`, lines 128-189).  The two dict
arguments are insertion-ordered association lists; `warnings` collects the
warnings logged for ground-truth queries without predictions. -/
def evaluate_system (K_values : List ℕ)
    (query_predictions ground_truth : List (String × List String)) :
    EvalResults :=
  let st := ground_truth.foldl (evalStep K_values query_predictions)
    { queries_evaluated := 0
      mean_recall_at_k := []
      per_query_recall := []
      warnings := [] }
  { queries_evaluated := st.queries_evaluated
    mean_recall_at_k := st.mean_recall_at_k
    per_query_recall := st.per_query_recall
    summary := buildSummary st.mean_recall_at_k
    warnings := st.warnings }

/-- The fields of a predicted-assessment dict that
`generate_predictions_csv` reads: `assessment.get('url')` and
`assessment.get('assessment_url')` (line 220). -/
structure PredictedAssessment where
  url : Option String
  assessment_url : Option String
deriving DecidableEq

/-- Python truthiness of an optional string: `None` and `""` are falsy. -/
def truthy : Option String → Bool
  | none => false
  | some s => s != ""

/-- `assessment.get('url') or assessment.get('assessment_url')`
(line 220). -/
def chosen_url (a : PredictedAssessment) : Option String :=
  if truthy a.url then a.url else a.assessment_url

/-- Embedding of the row-building loop of
`MeanRecallAtKEvaluator.generate_predictions_csv`
(`src/evaluation/shl_eval_framework.py`, lines 211-226): one
`(query_display, url)` row per assessment whose chosen url is truthy
(`if url:`); rows follow the predictions dict order and, inside one query's
block, that query's list order.  `query_mapping` is the optional
query-id → text mapping (`query_mapping.get(query_id, query_id)`). -/
def csv_rows (predictions : List (String × List PredictedAssessment))
    (query_mapping : Option (List (String × String))) :
    List (String × String) :=
  predictions.flatMap (fun qp =>
    let query_display :=
      match query_mapping with
      | some mapping => (mapping.lookup qp.1).getD qp.1
      | none => qp.1
    (qp.2.filter (fun a => truthy (chosen_url a))).map
      (fun a => (query_display, (chosen_url a).getD "")))

/-- The written CSV as a list of `(Query, Assessment_URL)` lines: the header
written by `writer.writeheader()` followed by the data rows
(lines 229-232). -/
def predictions_csv (predictions : List (String × List PredictedAssessment))
    (query_mapping : Option (List (String × String))) :
    List (String × String) :=
  ("Query", "Assessment_URL") :: csv_rows predictions query_mapping

lemma foldl_update_eta (K : List ℕ)
    (f : List (ℕ × List ℚ) → ℕ → List (ℕ × List ℚ))
    (g : List (String × List (ℕ × ℚ)) → ℕ → List (String × List (ℕ × ℚ))) :
    ∀ st : EvalLoopState,
      K.foldl (fun st k =>
          { st with
            mean_recall_at_k := f st.mean_recall_at_k k
            per_query_recall := g st.per_query_recall k }) st
        = { st with
            mean_recall_at_k := K.foldl f st.mean_recall_at_k
            per_query_recall := K.foldl g st.per_query_recall } := by
  induction K with
  | nil => intro st; rfl
  | cons k ks ih => intro st; rw [List.foldl_cons, ih]; rfl

lemma evalStep_matched (K : List ℕ) (preds : List (String × List String))
    (st : EvalLoopState) (e : String × List String) (purls : List String)
    (h : preds.lookup e.1 = some purls) :
    evalStep K preds st e
      = { queries_evaluated := st.queries_evaluated + 1
          mean_recall_at_k := K.foldl
            (fun m k => appendRecall m k (calculate_recall_at_k purls e.2 k))
            st.mean_recall_at_k
          per_query_recall := K.foldl
            (fun m k => setPerQuery m e.1 k (calculate_recall_at_k purls e.2 k))
            st.per_query_recall
          warnings := st.warnings } := by
  rw [evalStep, h]
  exact foldl_update_eta K
    (fun m k => appendRecall m k (calculate_recall_at_k purls e.2 k))
    (fun m k => setPerQuery m e.1 k (calculate_recall_at_k purls e.2 k))
    { st with queries_evaluated := st.queries_evaluated + 1 }

lemma evalStep_unmatched (K : List ℕ) (preds : List (String × List String))
    (st : EvalLoopState) (e : String × List String)
    (h : preds.lookup e.1 = none) :
    evalStep K preds st e = { st with warnings := st.warnings ++ [e.1] } := by
  rw [evalStep, h]

/-- The warning-independent components of the loop state. -/
def coreOf (st : EvalLoopState) :
    ℕ × List (ℕ × List ℚ) × List (String × List (ℕ × ℚ)) :=
  (st.queries_evaluated, st.mean_recall_at_k, st.per_query_recall)

lemma coreOf_evalStep_congr (K : List ℕ) (preds : List (String × List String))
    (e : String × List String) {st st' : EvalLoopState}
    (h : coreOf st = coreOf st') :
    coreOf (evalStep K preds st e) = coreOf (evalStep K preds st' e) := by
  have h1 : st.queries_evaluated = st'.queries_evaluated :=
    congrArg Prod.fst h
  have h2 : st.mean_recall_at_k = st'.mean_recall_at_k :=
    congrArg (fun p => p.2.1) h
  have h3 : st.per_query_recall = st'.per_query_recall :=
    congrArg (fun p => p.2.2) h
  cases hl : preds.lookup e.1 with
  | none =>
      rw [evalStep_unmatched _ _ _ _ hl, evalStep_unmatched _ _ _ _ hl]
      simpa [coreOf] using h
  | some purls =>
      rw [evalStep_matched _ _ _ _ _ hl, evalStep_matched _ _ _ _ _ hl]
      simp [coreOf, h1, h2, h3]

lemma foldl_core_congr (K : List ℕ) (preds : List (String × List String)) :
    ∀ (gt : List (String × List String)) {st st' : EvalLoopState},
      coreOf st = coreOf st' →
      coreOf (gt.foldl (evalStep K preds) st)
        = coreOf (gt.foldl (evalStep K preds) st') := by
  intro gt
  induction gt with
  | nil => intro st st' h; exact h
  | cons e gt ih =>
      intro st st' h
      rw [List.foldl_cons, List.foldl_cons]
      exact ih (coreOf_evalStep_congr K preds e h)

lemma foldl_core_filter (K : List ℕ) (preds : List (String × List String)) :
    ∀ (gt : List (String × List String)) (st : EvalLoopState),
      coreOf (gt.foldl (evalStep K preds) st)
        = coreOf ((gt.filter (fun e => (preds.lookup e.1).isSome)).foldl
            (evalStep K preds) st) := by
  intro gt
  induction gt with
  | nil => intro st; rfl
  | cons e gt ih =>
      intro st
      rw [List.foldl_cons]
      cases hl : preds.lookup e.1 with
      | some purls =>
          have hf : (e :: gt).filter (fun e => (preds.lookup e.1).isSome)
              = e :: gt.filter (fun e => (preds.lookup e.1).isSome) := by
            simp [List.filter_cons, hl]
          rw [hf, List.foldl_cons]
          exact ih (evalStep K preds st e)
      | none =>
          have hf : (e :: gt).filter (fun e => (preds.lookup e.1).isSome)
              = gt.filter (fun e => (preds.lookup e.1).isSome) := by
            simp [List.filter_cons, hl]
          rw [hf, evalStep_unmatched _ _ _ _ hl]
          exact (ih _).trans (foldl_core_congr K preds _ rfl)

lemma foldl_warnings (K : List ℕ) (preds : List (String × List String)) :
    ∀ (gt : List (String × List String)) (st : EvalLoopState),
      (gt.foldl (evalStep K preds) st).warnings
        = st.warnings
          ++ (gt.filter (fun e => !(preds.lookup e.1).isSome)).map Prod.fst := by
  intro gt
  induction gt with
  | nil => intro st; simp
  | cons e gt ih =>
      intro st
      rw [List.foldl_cons, ih]
      cases hl : preds.lookup e.1 with
      | some purls =>
          have hw : (evalStep K preds st e).warnings = st.warnings := by
            rw [evalStep_matched _ _ _ _ _ hl]
          have hf : (e :: gt).filter (fun e => !(preds.lookup e.1).isSome)
              = gt.filter (fun e => !(preds.lookup e.1).isSome) := by
            simp [List.filter_cons, hl]
          rw [hw, hf]
      | none =>
          have hw : (evalStep K preds st e).warnings
              = st.warnings ++ [e.1] := by
            rw [evalStep_unmatched _ _ _ _ hl]
          have hf : (e :: gt).filter (fun e => !(preds.lookup e.1).isSome)
              = e :: gt.filter (fun e => !(preds.lookup e.1).isSome) := by
            simp [List.filter_cons, hl]
          rw [hw, hf]
          simp

lemma foldl_queries_matched (K : List ℕ) (preds : List (String × List String)) :
    ∀ (m : List (String × List String)) (st : EvalLoopState),
      (∀ e ∈ m, ((preds.lookup e.1).isSome : Bool) = true) →
      (m.foldl (evalStep K preds) st).queries_evaluated
        = st.queries_evaluated + m.length := by
  intro m
  induction m with
  | nil => intro st _; simp
  | cons e m ih =>
      intro st hm
      rw [List.foldl_cons, ih _ (fun x hx => hm x (by simp [hx]))]
      have hq : (evalStep K preds st e).queries_evaluated
          = st.queries_evaluated + 1 := by
        obtain ⟨purls, hl⟩ := Option.isSome_iff_exists.mp (hm e (by simp))
        rw [evalStep_matched _ _ _ _ _ hl]
      rw [hq]
      simp [List.length_cons]
      omega

/-- C5: ground-truth queries with no matching prediction entry are logged (the
`warnings` component collects exactly the unmatched query ids, in order) and
excluded: the whole evaluation result equals the result of evaluating only
the matched ground-truth entries, and `queries_evaluated` counts exactly the
matched entries. -/
theorem evaluate_system_excludes_unmatched (K : List ℕ)
    (preds gt : List (String × List String)) :
    evaluate_system K preds gt
      = { evaluate_system K preds
            (gt.filter (fun e => (preds.lookup e.1).isSome)) with
          warnings :=
            (gt.filter (fun e => !(preds.lookup e.1).isSome)).map Prod.fst }
    ∧ (evaluate_system K preds gt).queries_evaluated
        = (gt.filter (fun e => (preds.lookup e.1).isSome)).length := by
  have hcore := foldl_core_filter K preds gt ⟨0, [], [], []⟩
  have h1 : (gt.foldl (evalStep K preds) ⟨0, [], [], []⟩).queries_evaluated
      = ((gt.filter (fun e => (preds.lookup e.1).isSome)).foldl
          (evalStep K preds) ⟨0, [], [], []⟩).queries_evaluated :=
    congrArg Prod.fst hcore
  have h2 : (gt.foldl (evalStep K preds) ⟨0, [], [], []⟩).mean_recall_at_k
      = ((gt.filter (fun e => (preds.lookup e.1).isSome)).foldl
          (evalStep K preds) ⟨0, [], [], []⟩).mean_recall_at_k :=
    congrArg (fun p => p.2.1) hcore
  have h3 : (gt.foldl (evalStep K preds) ⟨0, [], [], []⟩).per_query_recall
      = ((gt.filter (fun e => (preds.lookup e.1).isSome)).foldl
          (evalStep K preds) ⟨0, [], [], []⟩).per_query_recall :=
    congrArg (fun p => p.2.2) hcore
  have hw := foldl_warnings K preds gt ⟨0, [], [], []⟩
  constructor
  · simp only [evaluate_system, EvalResults.mk.injEq]
    exact ⟨h1, h2, h3, congrArg buildSummary h2, by rw [hw]; simp⟩
  · simp only [evaluate_system]
    rw [h1, foldl_queries_matched K preds _ _
      (fun x hx => (List.mem_filter.mp hx).2)]
    simp

lemma calculate_recall_at_k_eq (p g : List String) (k : ℕ) (hg : g ≠ []) :
    calculate_recall_at_k p g k
      = (((p.take k).toFinset ∩ g.toFinset).card : ℚ) / (g.toFinset.card : ℚ) := by
  rw [calculate_recall_at_k, if_neg hg]

lemma calculate_recall_at_k_unit (p g : List String) (k : ℕ) :
    0 ≤ calculate_recall_at_k p g k ∧ calculate_recall_at_k p g k ≤ 1 := by
  by_cases hg : g = []
  · subst hg; norm_num [calculate_recall_at_k]
  · rw [calculate_recall_at_k_eq p g k hg]
    have hb : 0 < g.toFinset.card := by
      obtain ⟨x, hx⟩ := List.exists_mem_of_ne_nil g hg
      exact Finset.card_pos.mpr ⟨x, List.mem_toFinset.mpr hx⟩
    have hab : ((p.take k).toFinset ∩ g.toFinset).card ≤ g.toFinset.card :=
      Finset.card_le_card Finset.inter_subset_right
    constructor
    · positivity
    · rw [div_le_one (by exact_mod_cast hb)]
      exact_mod_cast hab

lemma list_sum_of_const (c : ℚ) :
    ∀ (l : List ℚ), (∀ x ∈ l, x = c) → l.sum = l.length * c := by
  intro l
  induction l with
  | nil => simp
  | cons a l ih =>
      intro h
      have ha : a = c := h a (by simp)
      rw [List.sum_cons, ih (fun x hx => h x (by simp [hx])), ha,
        List.length_cons]
      push_cast
      ring

lemma listMean_unit (l : List ℚ) (hne : l ≠ [])
    (h : ∀ x ∈ l, 0 ≤ x ∧ x ≤ 1) : 0 ≤ listMean l ∧ listMean l ≤ 1 := by
  have hlen : (0:ℚ) < l.length := by
    exact_mod_cast List.length_pos.mpr hne
  constructor
  · exact div_nonneg (List.sum_nonneg fun x hx => (h x hx).1) hlen.le
  · rw [listMean, div_le_one hlen]
    calc l.sum ≤ l.length • (1:ℚ) :=
          List.sum_le_card_nsmul l 1 (fun x hx => (h x hx).2)
      _ = l.length := by simp

lemma foldl_min_unit :
    ∀ (l : List ℚ) (x : ℚ), (∀ y ∈ l, 0 ≤ y ∧ y ≤ 1) → 0 ≤ x ∧ x ≤ 1 →
      0 ≤ l.foldl min x ∧ l.foldl min x ≤ 1 := by
  intro l
  induction l with
  | nil => intro x _ hx; exact hx
  | cons y l ih =>
      intro x h hx
      rw [List.foldl_cons]
      refine ih (min x y) (fun z hz => h z (by simp [hz])) ?_
      rcases min_choice x y with hm | hm <;> rw [hm]
      · exact hx
      · exact h y (by simp)

lemma foldl_max_unit :
    ∀ (l : List ℚ) (x : ℚ), (∀ y ∈ l, 0 ≤ y ∧ y ≤ 1) → 0 ≤ x ∧ x ≤ 1 →
      0 ≤ l.foldl max x ∧ l.foldl max x ≤ 1 := by
  intro l
  induction l with
  | nil => intro x _ hx; exact hx
  | cons y l ih =>
      intro x h hx
      rw [List.foldl_cons]
      refine ih (max x y) (fun z hz => h z (by simp [hz])) ?_
      rcases max_choice x y with hm | hm <;> rw [hm]
      · exact hx
      · exact h y (by simp)

lemma listMin_unit (l : List ℚ) (hne : l ≠ [])
    (h : ∀ x ∈ l, 0 ≤ x ∧ x ≤ 1) : 0 ≤ listMin l ∧ listMin l ≤ 1 := by
  cases l with
  | nil => exact absurd rfl hne
  | cons a l =>
      exact foldl_min_unit l a (fun y hy => h y (by simp [hy])) (h a (by simp))

lemma listMax_unit (l : List ℚ) (hne : l ≠ [])
    (h : ∀ x ∈ l, 0 ≤ x ∧ x ≤ 1) : 0 ≤ listMax l ∧ listMax l ≤ 1 := by
  cases l with
  | nil => exact absurd rfl hne
  | cons a l =>
      exact foldl_max_unit l a (fun y hy => h y (by simp [hy])) (h a (by simp))

lemma round4_unit (x : ℚ) (h0 : 0 ≤ x) (h1 : x ≤ 1) :
    0 ≤ round4 x ∧ round4 x ≤ 1 := by
  have hr0 : (0:ℤ) ≤ round (x * 10000) := by
    rw [round_eq]
    apply Int.le_floor.mpr
    push_cast
    linarith
  have hr1 : round (x * 10000) ≤ 10000 := by
    rw [round_eq]
    have hlt : ⌊x * 10000 + 1/2⌋ < (10001 : ℤ) := by
      rw [Int.floor_lt]
      push_cast
      linarith
    omega
  constructor
  · apply div_nonneg _ (by norm_num)
    exact_mod_cast hr0
  · rw [round4, div_le_one (by norm_num)]
    exact_mod_cast hr1

lemma popVariance_nonneg (l : List ℚ) : 0 ≤ popVariance l := by
  apply div_nonneg
  · apply List.sum_nonneg
    intro x hx
    obtain ⟨y, _, rfl⟩ := List.mem_map.mp hx
    positivity
  · positivity

lemma popVariance_zero_of_const (l : List ℚ)
    (h : ∀ x ∈ l, ∀ y ∈ l, x = y) : popVariance l = 0 := by
  cases l with
  | nil => simp [popVariance]
  | cons a l =>
      have hall : ∀ x ∈ a :: l, x = a := fun x hx => h x hx a (by simp)
      have hmean : listMean (a :: l) = a := by
        have hlen : (((a :: l).length : ℚ)) ≠ 0 := by
          have : (0:ℚ) < ((a :: l).length : ℚ) := by
            exact_mod_cast Nat.succ_pos l.length
          exact this.ne.symm
        rw [listMean, list_sum_of_const a _ hall, mul_div_cancel_left₀ _ hlen]
      have hzero : (a :: l).map (fun x => (x - listMean (a :: l)) ^ 2)
          = (a :: l).map (fun _ => 0) := by
        apply List.map_congr_left
        intro x hx
        rw [hall x hx, hmean]
        ring
      rw [popVariance, hzero]
      simp

/-- The matched ground-truth entries: those with a prediction entry. -/
def matchedGT (preds gt : List (String × List String)) :
    List (String × List String) :=
  gt.filter (fun e => (preds.lookup e.1).isSome)

/-- The per-query recall values at one `k` across the entries of `m`, in
evaluation order. -/
def recallsAt (preds : List (String × List String))
    (m : List (String × List String)) (k : ℕ) : List ℚ :=
  m.map (fun e => calculate_recall_at_k ((preds.lookup e.1).getD []) e.2 k)

lemma foldl_appendRecall_fresh (rc : ℕ → ℚ) :
    ∀ (ks : List ℕ) (m0 : List (ℕ × List ℚ)), ks.Nodup →
      (∀ k ∈ ks, ∀ p ∈ m0, p.1 ≠ k) →
      ks.foldl (fun m k => appendRecall m k (rc k)) m0
        = m0 ++ ks.map (fun k => (k, [rc k])) := by
  intro ks
  induction ks with
  | nil => intro m0 _ _; simp
  | cons k ks ih =>
      intro m0 hnd hfresh
      rw [List.foldl_cons]
      have hnone : m0.any (fun p => p.1 == k) = false := by
        rw [List.any_eq_false]
        intro p hp
        simpa using hfresh k (by simp) p hp
      have happ : appendRecall m0 k (rc k) = m0 ++ [(k, [rc k])] := by
        rw [appendRecall, hnone]
        simp
      have hfresh' : ∀ k' ∈ ks, ∀ p ∈ m0 ++ [(k, [rc k])], p.1 ≠ k' := by
        intro k' hk' p hp
        rcases List.mem_append.mp hp with hp | hp
        · exact hfresh k' (by simp [hk']) p hp
        · have hpe : p = (k, [rc k]) := by simpa using hp
          subst hpe
          intro he
          have he' : k = k' := he
          exact (List.nodup_cons.mp hnd).1 (by rw [he']; exact hk')
      rw [happ, ih _ (List.nodup_cons.mp hnd).2 hfresh']
      simp

lemma foldl_appendRecall_present (rc : ℕ → ℚ) (K : List ℕ) :
    ∀ (ks : List ℕ) (g : ℕ → List ℚ), ks.Nodup → (∀ k ∈ ks, k ∈ K) →
      ks.foldl (fun m k => appendRecall m k (rc k))
          (K.map (fun k => (k, g k)))
        = K.map (fun k => (k, if k ∈ ks then g k ++ [rc k] else g k)) := by
  intro ks
  induction ks with
  | nil => intro g _ _; simp
  | cons k0 ks ih =>
      intro g hnd hsub
      rw [List.foldl_cons]
      have hmem : k0 ∈ K := hsub k0 (by simp)
      have hany : (K.map (fun k => (k, g k))).any (fun p => p.1 == k0)
          = true := by
        rw [List.any_eq_true]
        exact ⟨(k0, g k0), List.mem_map_of_mem _ hmem, by simp⟩
      have happ : appendRecall (K.map (fun k => (k, g k))) k0 (rc k0)
          = K.map (fun k => (k, if k = k0 then g k ++ [rc k0] else g k)) := by
        rw [appendRecall, hany]
        rw [if_pos rfl, List.map_map]
        apply List.map_congr_left
        intro k hk
        by_cases h : k = k0 <;> simp [Function.comp, h]
      rw [happ,
        ih (fun k => if k = k0 then g k ++ [rc k0] else g k)
          (List.nodup_cons.mp hnd).2 (fun k hk => hsub k (by simp [hk]))]
      apply List.map_congr_left
      intro k hk
      by_cases h1 : k = k0
      · subst h1
        have hnot : k ∉ ks := (List.nodup_cons.mp hnd).1
        simp [hnot]
      · by_cases h2 : k ∈ ks <;> simp [h1, h2]

lemma foldl_mean_matched (K : List ℕ) (preds : List (String × List String))
    (hK : K.Nodup) :
    ∀ (m : List (String × List String)) (st : EvalLoopState) (g : ℕ → List ℚ),
      (∀ e ∈ m, ((preds.lookup e.1).isSome : Bool) = true) →
      st.mean_recall_at_k = K.map (fun k => (k, g k)) →
      (m.foldl (evalStep K preds) st).mean_recall_at_k
        = K.map (fun k => (k, g k ++ recallsAt preds m k)) := by
  intro m
  induction m with
  | nil =>
      intro st g _ hst
      rw [List.foldl_nil, hst]
      simp [recallsAt]
  | cons e m ih =>
      intro st g hm hst
      obtain ⟨purls, hl⟩ := Option.isSome_iff_exists.mp (hm e (by simp))
      rw [List.foldl_cons]
      have hstep : (evalStep K preds st e).mean_recall_at_k
          = K.map (fun k =>
              (k, g k ++ [calculate_recall_at_k purls e.2 k])) := by
        rw [evalStep_matched _ _ _ _ _ hl]
        show K.foldl
            (fun m k => appendRecall m k (calculate_recall_at_k purls e.2 k))
            st.mean_recall_at_k = _
        rw [hst, foldl_appendRecall_present
          (fun k => calculate_recall_at_k purls e.2 k) K K g hK (fun k hk => hk)]
        apply List.map_congr_left
        intro k hk
        simp [hk]
      rw [ih (evalStep K preds st e)
        (fun k => g k ++ [calculate_recall_at_k purls e.2 k])
        (fun x hx => hm x (by simp [hx])) hstep]
      apply List.map_congr_left
      intro k hk
      have hre : recallsAt preds (e :: m) k
          = calculate_recall_at_k purls e.2 k :: recallsAt preds m k := by
        simp [recallsAt, hl]
      rw [hre]
      simp

lemma evaluate_mean_closed (K : List ℕ)
    (preds gt : List (String × List String)) (hK : K.Nodup)
    (hne : matchedGT preds gt ≠ []) :
    (evaluate_system K preds gt).mean_recall_at_k
      = K.map (fun k => (k, recallsAt preds (matchedGT preds gt) k)) := by
  have hcore := foldl_core_filter K preds gt ⟨0, [], [], []⟩
  have h2 : (gt.foldl (evalStep K preds) ⟨0, [], [], []⟩).mean_recall_at_k
      = ((matchedGT preds gt).foldl (evalStep K preds)
          ⟨0, [], [], []⟩).mean_recall_at_k :=
    congrArg (fun p => p.2.1) hcore
  have hall : ∀ x ∈ matchedGT preds gt,
      ((preds.lookup x.1).isSome : Bool) = true :=
    fun x hx => (List.mem_filter.mp hx).2
  simp only [evaluate_system]
  rw [h2]
  obtain ⟨e, m, hm⟩ : ∃ e m, matchedGT preds gt = e :: m := by
    cases hmm : matchedGT preds gt with
    | nil => exact absurd hmm hne
    | cons e m => exact ⟨e, m, rfl⟩
  rw [hm] at hall ⊢
  obtain ⟨purls, hl⟩ := Option.isSome_iff_exists.mp (hall e (by simp))
  rw [List.foldl_cons]
  have hstep : (evalStep K preds ⟨0, [], [], []⟩ e).mean_recall_at_k
      = K.map (fun k => (k, [calculate_recall_at_k purls e.2 k])) := by
    rw [evalStep_matched _ _ _ _ _ hl]
    show K.foldl
        (fun m k => appendRecall m k (calculate_recall_at_k purls e.2 k))
        [] = _
    rw [foldl_appendRecall_fresh
      (fun k => calculate_recall_at_k purls e.2 k) K [] hK (by simp)]
    simp
  rw [foldl_mean_matched K preds hK m _
    (fun k => [calculate_recall_at_k purls e.2 k])
    (fun x hx => hall x (by simp [hx])) hstep]
  apply List.map_congr_left
  intro k hk
  simp [recallsAt, hl]

lemma appendRecall_unit {m : List (ℕ × List ℚ)} {k : ℕ} {r : ℚ}
    (hm : ∀ p ∈ m, ∀ x ∈ p.2, 0 ≤ x ∧ x ≤ 1) (hr : 0 ≤ r ∧ r ≤ 1) :
    ∀ p ∈ appendRecall m k r, ∀ x ∈ p.2, 0 ≤ x ∧ x ≤ 1 := by
  intro p hp x hx
  rw [appendRecall] at hp
  split at hp
  · obtain ⟨q, hq, hqe⟩ := List.mem_map.mp hp
    by_cases h : q.1 = k
    · rw [if_pos h] at hqe
      subst hqe
      rcases List.mem_append.mp hx with hx | hx
      · exact hm q hq x hx
      · rw [List.mem_singleton.mp hx]; exact hr
    · rw [if_neg h] at hqe
      subst hqe
      exact hm q hq x hx
  · rcases List.mem_append.mp hp with hp | hp
    · exact hm p hp x hx
    · have hpe : p = (k, [r]) := by simpa using hp
      subst hpe
      rw [List.mem_singleton.mp hx]
      exact hr

lemma dictSet_unit {kv : List (ℕ × ℚ)} {k : ℕ} {r : ℚ}
    (hkv : ∀ q ∈ kv, 0 ≤ q.2 ∧ q.2 ≤ 1) (hr : 0 ≤ r ∧ r ≤ 1) :
    ∀ q ∈ dictSet kv k r, 0 ≤ q.2 ∧ q.2 ≤ 1 := by
  intro q hq
  rw [dictSet] at hq
  split at hq
  · obtain ⟨q', hq', hqe⟩ := List.mem_map.mp hq
    by_cases h : q'.1 = k
    · rw [if_pos h] at hqe
      subst hqe
      exact hr
    · rw [if_neg h] at hqe
      subst hqe
      exact hkv q' hq'
  · rcases List.mem_append.mp hq with hq | hq
    · exact hkv q hq
    · have hqe : q = (k, r) := by simpa using hq
      subst hqe
      exact hr

lemma setPerQuery_unit {m : List (String × List (ℕ × ℚ))} {q : String}
    {k : ℕ} {r : ℚ}
    (hm : ∀ p ∈ m, ∀ kr ∈ p.2, 0 ≤ kr.2 ∧ kr.2 ≤ 1) (hr : 0 ≤ r ∧ r ≤ 1) :
    ∀ p ∈ setPerQuery m q k r, ∀ kr ∈ p.2, 0 ≤ kr.2 ∧ kr.2 ≤ 1 := by
  intro p hp kr hkr
  rw [setPerQuery] at hp
  split at hp
  · obtain ⟨q', hq', hqe⟩ := List.mem_map.mp hp
    by_cases h : q'.1 = q
    · rw [if_pos h] at hqe
      subst hqe
      exact dictSet_unit (hm q' hq') hr kr hkr
    · rw [if_neg h] at hqe
      subst hqe
      exact hm q' hq' kr hkr
  · rcases List.mem_append.mp hp with hp | hp
    · exact hm p hp kr hkr
    · have hpe : p = (q, [(k, r)]) := by simpa using hp
      subst hpe
      rw [List.mem_singleton.mp hkr]
      exact hr

lemma foldl_appendRecall_unit (rc : ℕ → ℚ)
    (hrc : ∀ k, 0 ≤ rc k ∧ rc k ≤ 1) :
    ∀ (ks : List ℕ) (m : List (ℕ × List ℚ)),
      (∀ p ∈ m, ∀ x ∈ p.2, 0 ≤ x ∧ x ≤ 1) →
      ∀ p ∈ ks.foldl (fun m k => appendRecall m k (rc k)) m,
        ∀ x ∈ p.2, 0 ≤ x ∧ x ≤ 1 := by
  intro ks
  induction ks with
  | nil => intro m hm; exact hm
  | cons k ks ih =>
      intro m hm
      rw [List.foldl_cons]
      exact ih _ (appendRecall_unit hm (hrc k))

lemma foldl_setPerQuery_unit (q : String) (rc : ℕ → ℚ)
    (hrc : ∀ k, 0 ≤ rc k ∧ rc k ≤ 1) :
    ∀ (ks : List ℕ) (m : List (String × List (ℕ × ℚ))),
      (∀ p ∈ m, ∀ kr ∈ p.2, 0 ≤ kr.2 ∧ kr.2 ≤ 1) →
      ∀ p ∈ ks.foldl (fun m k => setPerQuery m q k (rc k)) m,
        ∀ kr ∈ p.2, 0 ≤ kr.2 ∧ kr.2 ≤ 1 := by
  intro ks
  induction ks with
  | nil => intro m hm; exact hm
  | cons k ks ih =>
      intro m hm
      rw [List.foldl_cons]
      exact ih _ (setPerQuery_unit hm (hrc k))

lemma evalStep_unit (K : List ℕ) (preds : List (String × List String))
    (st : EvalLoopState) (e : String × List String)
    (h1 : ∀ p ∈ st.mean_recall_at_k, ∀ x ∈ p.2, 0 ≤ x ∧ x ≤ 1)
    (h2 : ∀ p ∈ st.per_query_recall, ∀ kr ∈ p.2, 0 ≤ kr.2 ∧ kr.2 ≤ 1) :
    (∀ p ∈ (evalStep K preds st e).mean_recall_at_k,
        ∀ x ∈ p.2, 0 ≤ x ∧ x ≤ 1)
    ∧ (∀ p ∈ (evalStep K preds st e).per_query_recall,
        ∀ kr ∈ p.2, 0 ≤ kr.2 ∧ kr.2 ≤ 1) := by
  cases hl : preds.lookup e.1 with
  | none =>
      rw [evalStep_unmatched _ _ _ _ hl]
      exact ⟨h1, h2⟩
  | some purls =>
      rw [evalStep_matched _ _ _ _ _ hl]
      constructor
      · show ∀ p ∈ K.foldl
            (fun m k => appendRecall m k (calculate_recall_at_k purls e.2 k))
            st.mean_recall_at_k, ∀ x ∈ p.2, 0 ≤ x ∧ x ≤ 1
        exact foldl_appendRecall_unit _
          (fun k => calculate_recall_at_k_unit purls e.2 k) K
          st.mean_recall_at_k h1
      · show ∀ p ∈ K.foldl
            (fun m k => setPerQuery m e.1 k (calculate_recall_at_k purls e.2 k))
            st.per_query_recall, ∀ kr ∈ p.2, 0 ≤ kr.2 ∧ kr.2 ≤ 1
        exact foldl_setPerQuery_unit e.1 _
          (fun k => calculate_recall_at_k_unit purls e.2 k) K
          st.per_query_recall h2

lemma foldl_eval_unit (K : List ℕ) (preds : List (String × List String)) :
    ∀ (gt : List (String × List String)) (st : EvalLoopState),
      (∀ p ∈ st.mean_recall_at_k, ∀ x ∈ p.2, 0 ≤ x ∧ x ≤ 1) →
      (∀ p ∈ st.per_query_recall, ∀ kr ∈ p.2, 0 ≤ kr.2 ∧ kr.2 ≤ 1) →
      (∀ p ∈ (gt.foldl (evalStep K preds) st).mean_recall_at_k,
          ∀ x ∈ p.2, 0 ≤ x ∧ x ≤ 1)
      ∧ (∀ p ∈ (gt.foldl (evalStep K preds) st).per_query_recall,
          ∀ kr ∈ p.2, 0 ≤ kr.2 ∧ kr.2 ≤ 1) := by
  intro gt
  induction gt with
  | nil => intro st h1 h2; exact ⟨h1, h2⟩
  | cons e gt ih =>
      intro st h1 h2
      rw [List.foldl_cons]
      obtain ⟨h1', h2'⟩ := evalStep_unit K preds st e h1 h2
      exact ih (evalStep K preds st e) h1' h2'

lemma evaluate_mean_unit (K : List ℕ)
    (preds gt : List (String × List String)) :
    ∀ p ∈ (evaluate_system K preds gt).mean_recall_at_k,
      ∀ x ∈ p.2, 0 ≤ x ∧ x ≤ 1 := by
  simp only [evaluate_system]
  exact (foldl_eval_unit K preds gt ⟨0, [], [], []⟩ (by simp) (by simp)).1

lemma evaluate_per_query_unit (K : List ℕ)
    (preds gt : List (String × List String)) :
    ∀ p ∈ (evaluate_system K preds gt).per_query_recall,
      ∀ kr ∈ p.2, 0 ≤ kr.2 ∧ kr.2 ≤ 1 := by
  simp only [evaluate_system]
  exact (foldl_eval_unit K preds gt ⟨0, [], [], []⟩ (by simp) (by simp)).2

lemma mem_buildSummary {m : List (ℕ × List ℚ)} {p : ℕ × SummaryStats}
    (hp : p ∈ buildSummary m) :
    ∃ q ∈ m, q.2 ≠ [] ∧ p = (q.1, statsOf q.2) := by
  have aux : ∀ (l : List (ℕ × List ℚ)) (acc : List (ℕ × SummaryStats)),
      p ∈ l.foldl
        (fun s q => if q.2 = [] then s else s ++ [(q.1, statsOf q.2)]) acc →
      p ∈ acc ∨ ∃ q ∈ l, q.2 ≠ [] ∧ p = (q.1, statsOf q.2) := by
    intro l
    induction l with
    | nil => intro acc h; exact Or.inl h
    | cons q l ih =>
        intro acc h
        rw [List.foldl_cons] at h
        by_cases hq : q.2 = []
        · rw [if_pos hq] at h
          rcases ih acc h with h | ⟨q', hq', hne, hpe⟩
          · exact Or.inl h
          · exact Or.inr ⟨q', by simp [hq'], hne, hpe⟩
        · rw [if_neg hq] at h
          rcases ih _ h with h | ⟨q', hq', hne, hpe⟩
          · rcases List.mem_append.mp h with h | h
            · exact Or.inl h
            · exact Or.inr ⟨q, by simp, hq, List.mem_singleton.mp h⟩
          · exact Or.inr ⟨q', by simp [hq'], hne, hpe⟩
  rcases aux m [] hp with h | h
  · simp at h
  · exact h

lemma buildSummary_closed (m : List (ℕ × List ℚ))
    (h : ∀ p ∈ m, p.2 ≠ []) :
    buildSummary m = m.map (fun p => (p.1, statsOf p.2)) := by
  have aux : ∀ (l : List (ℕ × List ℚ)) (acc : List (ℕ × SummaryStats)),
      (∀ p ∈ l, p.2 ≠ []) →
      l.foldl (fun s q => if q.2 = [] then s else s ++ [(q.1, statsOf q.2)])
          acc
        = acc ++ l.map (fun p => (p.1, statsOf p.2)) := by
    intro l
    induction l with
    | nil => intro acc _; simp
    | cons q l ih =>
        intro acc hl
        rw [List.foldl_cons, if_neg (hl q (by simp)),
          ih _ (fun p hp => hl p (by simp [hp]))]
        simp
  simpa using aux m [] h

/-- C6: with distinct configured K values (as in the default `[5, 10]`), the
summary reports, for each configured K, the statistics of the list of
per-query recall values at that K: the 4-decimal-rounded mean, the
population variance (the square of the reported population standard
deviation `np.std`, so the reported std is 0 exactly when `var = 0`), and
the rounded min and max; every recorded per-query recall lies in `[0,1]`,
so do the reported mean, min and max; and the variance — hence the std —
is 0 whenever every per-query recall at that K is equal. -/
theorem evaluate_system_summary_stats (K : List ℕ)
    (preds gt : List (String × List String)) (hK : K.Nodup) :
    (matchedGT preds gt ≠ [] →
      (evaluate_system K preds gt).summary
        = K.map (fun k =>
            (k, statsOf (recallsAt preds (matchedGT preds gt) k))))
    ∧ (∀ p ∈ (evaluate_system K preds gt).per_query_recall,
        ∀ kr ∈ p.2, 0 ≤ kr.2 ∧ kr.2 ≤ 1)
    ∧ (∀ k : ℕ,
        (∀ r ∈ recallsAt preds (matchedGT preds gt) k,
          ∀ r' ∈ recallsAt preds (matchedGT preds gt) k, r = r') →
        (statsOf (recallsAt preds (matchedGT preds gt) k)).var = 0)
    ∧ (∀ p ∈ (evaluate_system K preds gt).summary,
        (0 ≤ (p.2).mean ∧ (p.2).mean ≤ 1)
        ∧ (0 ≤ (p.2).min ∧ (p.2).min ≤ 1)
        ∧ (0 ≤ (p.2).max ∧ (p.2).max ≤ 1)
        ∧ 0 ≤ (p.2).var) := by
  have hsummary : (evaluate_system K preds gt).summary
      = buildSummary ((evaluate_system K preds gt).mean_recall_at_k) := rfl
  refine ⟨?_, evaluate_per_query_unit K preds gt, ?_, ?_⟩
  · intro hne
    rw [hsummary, evaluate_mean_closed K preds gt hK hne,
      buildSummary_closed _ ?_]
    · rw [List.map_map]
      apply List.map_congr_left
      intro k _
      rfl
    · intro p hp
      obtain ⟨k, _, rfl⟩ := List.mem_map.mp hp
      simpa [recallsAt] using hne
  · intro k h
    exact popVariance_zero_of_const _ h
  · intro p hp
    rw [hsummary] at hp
    obtain ⟨q, hq, hne, rfl⟩ := mem_buildSummary hp
    have hunit : ∀ x ∈ q.2, 0 ≤ x ∧ x ≤ 1 :=
      fun x hx => evaluate_mean_unit K preds gt q hq x hx
    have hmean := listMean_unit q.2 hne hunit
    have hmin := listMin_unit q.2 hne hunit
    have hmax := listMax_unit q.2 hne hunit
    exact ⟨round4_unit _ hmean.1 hmean.2, round4_unit _ hmin.1 hmin.2,
      round4_unit _ hmax.1 hmax.2, popVariance_nonneg _⟩

/-- Witness for C6 at a concrete input. -/
theorem evaluate_system_summary_stats_witness :
    ([1] : List ℕ).Nodup
    ∧ ((matchedGT [("q", ["u"])] [("q", ["u"])] ≠ [] →
          (evaluate_system [1] [("q", ["u"])] [("q", ["u"])]).summary
            = ([1] : List ℕ).map (fun k =>
                (k, statsOf (recallsAt [("q", ["u"])]
                      (matchedGT [("q", ["u"])] [("q", ["u"])]) k))))
        ∧ (∀ p ∈ (evaluate_system [1] [("q", ["u"])]
              [("q", ["u"])]).per_query_recall,
            ∀ kr ∈ p.2, 0 ≤ kr.2 ∧ kr.2 ≤ 1)
        ∧ (∀ k : ℕ,
            (∀ r ∈ recallsAt [("q", ["u"])]
                (matchedGT [("q", ["u"])] [("q", ["u"])]) k,
              ∀ r' ∈ recallsAt [("q", ["u"])]
                  (matchedGT [("q", ["u"])] [("q", ["u"])]) k, r = r') →
            (statsOf (recallsAt [("q", ["u"])]
                (matchedGT [("q", ["u"])] [("q", ["u"])]) k)).var = 0)
        ∧ (∀ p ∈ (evaluate_system [1] [("q", ["u"])] [("q", ["u"])]).summary,
            (0 ≤ (p.2).mean ∧ (p.2).mean ≤ 1)
            ∧ (0 ≤ (p.2).min ∧ (p.2).min ≤ 1)
            ∧ (0 ≤ (p.2).max ∧ (p.2).max ≤ 1)
            ∧ 0 ≤ (p.2).var)) :=
  ⟨by simp,
    evaluate_system_summary_stats [1] [("q", ["u"])] [("q", ["u"])] (by simp)⟩

lemma csv_rows_all_truthy :
    ∀ (predictions : List (String × List PredictedAssessment)),
      (∀ qp ∈ predictions, ∀ a ∈ qp.2, truthy (chosen_url a) = true) →
      csv_rows predictions none
        = predictions.flatMap (fun qp =>
            qp.2.map (fun a => (qp.1, (chosen_url a).getD ""))) := by
  intro predictions
  induction predictions with
  | nil => intro _; rfl
  | cons qp ps ih =>
      intro h
      have htail := ih (fun q hq a ha => h q (by simp [hq]) a ha)
      simp only [csv_rows] at htail ⊢
      rw [List.flatMap_cons, List.flatMap_cons, htail]
      congr 1
      rw [List.filter_eq_self.mpr (fun a ha => h qp (by simp) a ha)]

/-- C8 counterexample: the export does not write one row for every
(query, recommended-item) pair — an assessment whose dict has neither a
truthy `url` nor a truthy `assessment_url` is silently skipped (`if url:`,
line 221): one query with one recommended item yields zero rows. -/
theorem csv_row_skipped_counterexample :
    (csv_rows [("q1", [⟨none, none⟩])] none).length = 0
    ∧ ([("q1", [(⟨none, none⟩ : PredictedAssessment)])].flatMap
        (fun qp => qp.2)).length = 1 := by
  constructor <;> rfl

/-- C8 (amended): for predictions in which every recommended item carries a
truthy url (`url`, or else `assessment_url`), the written table is the
header `Query,Assessment_URL` followed by exactly one row per
(query, recommended-item) pair, and within each query's block the rows
preserve that query's list (rank) order. -/
theorem csv_header_and_one_row_per_url_pair
    (predictions : List (String × List PredictedAssessment))
    (h : ∀ qp ∈ predictions, ∀ a ∈ qp.2, truthy (chosen_url a) = true) :
    predictions_csv predictions none
      = ("Query", "Assessment_URL")
        :: predictions.flatMap (fun qp =>
             qp.2.map (fun a => (qp.1, (chosen_url a).getD ""))) := by
  rw [predictions_csv, csv_rows_all_truthy predictions h]

/-- Witness for the amended C8 at a concrete input. -/
theorem csv_header_and_one_row_per_url_pair_witness :
    (∀ qp ∈ [("q1", [(⟨some "u1", none⟩ : PredictedAssessment),
                     ⟨none, some "u2"⟩])],
      ∀ a ∈ qp.2, truthy (chosen_url a) = true)
    ∧ predictions_csv
          [("q1", [(⟨some "u1", none⟩ : PredictedAssessment),
                   ⟨none, some "u2"⟩])] none
        = ("Query", "Assessment_URL")
          :: [("q1", [(⟨some "u1", none⟩ : PredictedAssessment),
                      ⟨none, some "u2"⟩])].flatMap
               (fun qp => qp.2.map (fun a => (qp.1, (chosen_url a).getD ""))) :=
  ⟨by decide, csv_header_and_one_row_per_url_pair _ (by decide)⟩

end SHL
